import Mathlib

/-!
Shallow embedding of the numerical kernels of the Hoxbro/examples notebook
collection, together with theorems settling the specification claims.

The embedded code comes from:
* src/genetic_algorithm/GA.ipynb  (population update, tournament selection,
  crossover, mutation, target globals, fitness)
* src/boids/boids.ipynb           (flocking step on a toroidal world)
* src/attractors/attractors.ipynb (trajectory_coords iteration loop)
* src/euler/anaconda-project.yml  (euler_step / euler_table)
* src/heat_and_trees/Heat_and_Trees.ipynb (parse_type exception handler)

Machine floats are modelled by exact arithmetic: rationals where the claims
are algebraic, reals where a square root is required (boids).  Randomness is
modelled by passing the drawn values explicitly.  Python code that raises an
exception is modelled with Option or Except results.
-/

set_option autoImplicit false

namespace GA

/-- An individual of the genetic algorithm: one row of the population
array, a vector of floats (a list of rationals in this model). -/
abbrev Ind : Type := List ℚ

/-- Embeds assess_fitness from GA.ipynb:
returns problem(individual). -/
def assess_fitness {α : Type} (individual : α) (problem : α → ℚ) : ℚ :=
  problem individual

/-- Embeds the Python builtin min over a list of fitness values;
min([]) raises ValueError, modelled by none. -/
def list_min : List ℚ → Option ℚ
  | [] => none
  | f :: fs => some (fs.foldl min f)

/-- Embeds find_current_best from GA.ipynb:
fitnesses = [assess_fitness(x, problem) for x in population];
best_value = min(fitnesses); best_index = fitnesses.index(best_value);
return population[best_index].  An empty population makes min raise,
modelled by none. -/
def find_current_best {α : Type} (population : List α) (problem : α → ℚ) :
    Option α :=
  let fitnesses := population.map (fun x => assess_fitness x problem)
  match list_min fitnesses with
  | none => none
  | some best_value => population.get? (fitnesses.indexOf best_value)

/-- Embeds tournament_select_with_replacement from GA.ipynb.  The call
np.random.choice(population.shape[0], tournament_size, replace=True) draws
tournament_size indices below the population length; the drawn indices are
passed here explicitly as idxs (so tournament_size = idxs.length). -/
def tournament_select_with_replacement {α : Type} (population : List α)
    (idxs : List (Fin population.length)) (problem : α → ℚ) : Option α :=
  let challengers := idxs.map (fun i => population.get i)
  find_current_best challengers problem

/-- Embeds a Python slice l[i:j] (for i ≤ j; out-of-range bounds clamp). -/
def pySlice {α : Type} (l : List α) (i j : ℕ) : List α :=
  (l.take j).drop i

/-- Embeds crossover from GA.ipynb.  The two draws random.randint(0, l)
are passed in as c0 and d0; the body flips them if c0 > d0 and bumps d by
one if the two coincide, then swaps the middle slice of the parents. -/
def crossover (parent_a parent_b : Ind) (c0 d0 : ℕ) : Ind × Ind :=
  let c := if c0 > d0 then d0 else c0
  let d0' := if c0 > d0 then c0 else d0
  let d := if c = d0' then d0' + 1 else d0'
  (pySlice parent_a 0 c ++ pySlice parent_b c d ++ parent_a.drop d,
   pySlice parent_b 0 c ++ pySlice parent_a c d ++ parent_b.drop d)

/-- Embeds mutate from GA.ipynb.  The draw random.uniform(0, 1) is passed
as roll, and np.random.normal(0, mutation_scale, size) is modelled as
mutation_scale times the standard normal draws noise 0, noise 1, .... -/
def mutate (child : Ind) (mutation_rate mutation_scale : ℚ) (roll : ℚ)
    (noise : ℕ → ℚ) : Ind :=
  if mutation_rate ≥ roll then
    List.zipWith (· + ·)
      child ((List.range child.length).map (fun i => mutation_scale * noise i))
  else child

/-- The random draws consumed by one iteration of the update_population
loop: two tournaments of size two (tournament_size = 2 in the source), the
two crossover points, and the mutation roll and noise for each child. -/
structure GenStep (n : ℕ) where
  a1 : Fin n
  a2 : Fin n
  b1 : Fin n
  b2 : Fin n
  c : ℕ
  d : ℕ
  rollA : ℚ
  rollB : ℚ
  noiseA : ℕ → ℚ
  noiseB : ℕ → ℚ

/-- One iteration of the update_population loop: select two parents by
tournaments of size 2, cross them over, optionally mutate, and write the
children at positions i and int(i + pop_size/2) of the next population. -/
def update_step (current : List Ind) (problem : Ind → ℚ)
    (should_mutate : Bool) (mutation_rate mutation_scale : ℚ)
    (s : GenStep current.length) (next : List Ind) (i : ℕ) :
    Option (List Ind) :=
  match tournament_select_with_replacement current [s.a1, s.a2] problem,
        tournament_select_with_replacement current [s.b1, s.b2] problem with
  | some parent_a, some parent_b =>
      let children := crossover parent_a parent_b s.c s.d
      let child_a := if should_mutate then
          mutate children.1 mutation_rate mutation_scale s.rollA s.noiseA
        else children.1
      let child_b := if should_mutate then
          mutate children.2 mutation_rate mutation_scale s.rollB s.noiseB
        else children.2
      some ((next.set i child_a).set (i + current.length / 2) child_b)
  | _, _ => none

/-- Embeds update_population from GA.ipynb.  next_population starts as
np.empty((pop_size, 2)), whose unspecified contents are the parameter
init; the loop runs for i in range(int(pop_size / 2)) and the random
draws of iteration i are rand i.  Python float arithmetic makes
int(i + pop_size/2) equal to i + pop_size // 2 for natural i. -/
def update_population (current : List Ind) (problem : Ind → ℚ)
    (should_mutate : Bool) (mutation_rate mutation_scale : ℚ)
    (init : ℕ → Ind)
    (rand : Fin (current.length / 2) → GenStep current.length) :
    Option (List Ind) :=
  let pop_size := current.length
  let next0 := (List.range pop_size).map init
  (List.finRange (pop_size / 2)).foldlM
    (fun next i =>
      update_step current problem should_mutate mutation_rate mutation_scale
        (rand i) next i.val)
    next0

/-- The state held by the GeneticAlgorithm class of GA.ipynb. -/
structure GeneticAlgorithm where
  problem : Ind → ℚ
  current_population : List Ind
  current_best : Ind

/-- Embeds GeneticAlgorithm.next_generation from GA.ipynb: replaces
current_population by update_population of it and current_best by
find_current_best of the new population. -/
def GeneticAlgorithm.next_generation (ga : GeneticAlgorithm)
    (mrate mscale : ℚ) (should_mutate : Bool) (init : ℕ → Ind)
    (rand : Fin (ga.current_population.length / 2)
      → GenStep ga.current_population.length) :
    Option GeneticAlgorithm :=
  match update_population ga.current_population ga.problem should_mutate
      mrate mscale init rand with
  | none => none
  | some pop =>
      match find_current_best pop ga.problem with
      | none => none
      | some best =>
          some { problem := ga.problem, current_population := pop,
                 current_best := best }

/-- The two global variables target_x and target_y of GA.ipynb. -/
structure TargetState where
  target_x : ℚ
  target_y : ℚ
deriving DecidableEq

/-- Embeds mean_squared_error from GA.ipynb:
((y_true - y_pred)**2).mean(axis=0). -/
def mean_squared_error (y_true y_pred : List ℚ) : ℚ :=
  let diffs := List.zipWith (fun a b => (a - b) ^ 2) y_true y_pred
  diffs.sum / diffs.length

/-- Embeds problem from GA.ipynb, which reads the globals target_x and
target_y (the TargetState here): mean_squared_error(soln, [target_x,
target_y]). -/
def problem (s : TargetState) (soln : List ℚ) : ℚ :=
  mean_squared_error soln [s.target_x, s.target_y]

/-- Embeds tap_event from GA.ipynb: when x is not None the globals are
reassigned target_x, target_y = x, y; otherwise they are left unchanged.
(The hv.Points return value is display only and is not modelled.) -/
def tap_event (x : Option ℚ) (y : ℚ) (s : TargetState) : TargetState :=
  match x with
  | some xv => { target_x := xv, target_y := y }
  | none => s

end GA

namespace Euler

/-- Embeds euler_step from the euler notebook:
hs = h * func(x, y); x = x + h; y = y + hs; return x, y. -/
def euler_step (x y h : ℚ) (func : ℚ → ℚ → ℚ) : ℚ × ℚ :=
  let hs := h * func x y
  (x + h, y + hs)

/-- The loop of euler_table: runs the remaining iterations from the
current point, appending each stepped point and breaking as soon as an
appended point has |x| > 5 or |y| > 5 (we ran off the grid). -/
def euler_table_go (func : ℚ → ℚ → ℚ) (h : ℚ) :
    ℕ → ℚ → ℚ → List (ℚ × ℚ)
  | 0, _, _ => []
  | Nat.succ m, x0, y0 =>
      let p := euler_step x0 y0 h func
      if 5 < |p.1| ∨ 5 < |p.2| then [p]
      else p :: euler_table_go func h m p.1 p.2

/-- Embeds euler_table from the euler notebook: starts the lists with
(x0, y0), then loops for i in range(n) stepping and appending, breaking
off the grid.  The parallel lists xl and yl are modelled as one list of
points (the hv.Table pairs them up again). -/
def euler_table (x0 y0 : ℚ) (n : ℕ) (h : ℚ) (func : ℚ → ℚ → ℚ) :
    List (ℚ × ℚ) :=
  (x0, y0) :: euler_table_go func h n x0 y0

end Euler

namespace Attractors

/-- The pure n-fold iteration of the map fn from the starting point:
the closed form that trajectory_coords is claimed to compute. -/
def trajectory_point {α : Type} [Zero α]
    (fn : α → α → α → α → α → α → α → α → α × α)
    (x0 y0 a b c d e f : α) : ℕ → α × α
  | 0 => (x0, y0)
  | Nat.succ i =>
      let p := trajectory_point fn x0 y0 a b c d e f i
      fn p.1 p.2 a b c d e f

/-- One iteration of the trajectory_coords loop: reads x[i], y[i],
applies fn and writes x[i+1], y[i+1]. -/
def trajStep {α : Type} [Zero α]
    (fn : α → α → α → α → α → α → α → α → α × α) (a b c d e f : α)
    (st : List α × List α) (i : ℕ) : List α × List α :=
  let p := fn (st.1.getD i 0) (st.2.getD i 0) a b c d e f
  (st.1.set (i + 1) p.1, st.2.set (i + 1) p.2)

/-- Embeds trajectory_coords from attractors.ipynb: x, y = np.zeros(n),
np.zeros(n); x[0], y[0] = x0, y0; for i in np.arange(n-1): x[i+1], y[i+1]
= fn(x[i], y[i], a, b, c, d, e, f).  For n = 0 the assignment x[0] = x0
raises IndexError, modelled by none. -/
def trajectory_coords {α : Type} [Zero α]
    (fn : α → α → α → α → α → α → α → α → α × α)
    (x0 y0 a b c d e f : α) (n : ℕ) : Option (List α × List α) :=
  if n = 0 then none
  else
    let x := (List.replicate n (0 : α)).set 0 x0
    let y := (List.replicate n (0 : α)).set 0 y0
    some ((List.range (n - 1)).foldl (trajStep fn a b c d e f) (x, y))

end Attractors

namespace HeatTrees

/-- Embeds parse_type, the converter defined inside
load_google_landsat_metadata in Heat_and_Trees.ipynb:
try: return eval(x) except: return x.  The library call eval is passed in
as ev, returning Except: ok a parsed value, error an exception.  A bare
except catches every exception, so on error the raw string x is returned
instead; the result is either a parsed value (inl) or the raw string
(inr). -/
def parse_type {E V : Type} (ev : String → Except E V) (x : String) :
    Except E (V ⊕ String) :=
  match ev x with
  | Except.ok v => Except.ok (Sum.inl v)
  | Except.error _ => Except.ok (Sum.inr x)

/-- A concrete model of eval for the counterexample: accepts the one
literal "42" and raises (SyntaxError) on any other string, as eval does
on a Landsat metadata field such as L1TP that is not a Python
literal. -/
def evalModel (x : String) : Except String ℕ :=
  if x = "42" then Except.ok 42 else Except.error "SyntaxError"

end HeatTrees

namespace Boids

/-- The state held by BoidState/Boids in boids.ipynb: the world size, the
iteration counter, and the (N, 2) position and velocity arrays, modelled
as lists of real pairs. -/
structure BoidState where
  width : ℝ
  height : ℝ
  iteration : ℕ
  pos : List (ℝ × ℝ)
  vel : List (ℝ × ℝ)

noncomputable section

/-- The Euclidean norm of one row, np.sqrt((v*v).sum(axis=1)). -/
def pnorm (p : ℝ × ℝ) : ℝ := Real.sqrt (p.1 ^ 2 + p.2 ^ 2)

/-- Row i of self.pos (reads of the position array). -/
def posAt (s : BoidState) (i : ℕ) : ℝ × ℝ := s.pos.getD i (0, 0)

/-- Row i of self.vel (reads of the velocity array). -/
def velAt (s : BoidState) (i : ℕ) : ℝ × ℝ := s.vel.getD i (0, 0)

/-- Entry (i, j) of dx = np.subtract.outer(pos[:,0], pos[:,0]). -/
def dxF (s : BoidState) (i j : ℕ) : ℝ := (posAt s i).1 - (posAt s j).1

/-- Entry (i, j) of dy = np.subtract.outer(pos[:,1], pos[:,1]). -/
def dyF (s : BoidState) (i j : ℕ) : ℝ := (posAt s i).2 - (posAt s j).2

/-- Entry (i, j) of dist = np.hypot(dx, dy). -/
def distF (s : BoidState) (i j : ℕ) : ℝ :=
  Real.sqrt (dxF s i j ^ 2 + dyF s i j ^ 2)

/-- Entry (i, j) of mask_1 = (dist > 0) * (dist < 25). -/
def mask1 (s : BoidState) (i j : ℕ) : Prop :=
  0 < distF s i j ∧ distF s i j < 25

/-- Entry (i, j) of mask_2 = (dist > 0) * (dist < 50). -/
def mask2 (s : BoidState) (i j : ℕ) : Prop :=
  0 < distF s i j ∧ distF s i j < 50

instance mask1Dec (s : BoidState) (i j : ℕ) : Decidable (mask1 s i j) :=
  inferInstanceAs (Decidable (0 < distF s i j ∧ distF s i j < 25))

instance mask2Dec (s : BoidState) (i j : ℕ) : Decidable (mask2 s i j) :=
  inferInstanceAs (Decidable (0 < distF s i j ∧ distF s i j < 50))

/-- Row i of count(mask_1, n) = np.maximum(mask_1.sum(axis=1), 1). -/
def count1 (s : BoidState) (i : ℕ) : ℕ :=
  max ((List.range s.pos.length).countP (fun j => decide (mask1 s i j))) 1

/-- Row i of count(mask_2, n). -/
def count2 (s : BoidState) (i : ℕ) : ℕ :=
  max ((List.range s.pos.length).countP (fun j => decide (mask2 s i j))) 1

/-- Sum of a row of an n-wide matrix of pairs (a .sum(axis=1)). -/
def sumRow (n : ℕ) (f : ℕ → ℝ × ℝ) : ℝ × ℝ := ((List.range n).map f).sum

/-- Entry (i, j) of target = np.divide(np.dstack((dx, dy)), dist**2,
out=target, where=dist != 0): divided where dist is nonzero, the raw
(dx, dy) elsewhere. -/
def targetSep (s : BoidState) (i j : ℕ) : ℝ × ℝ :=
  if distF s i j ≠ 0 then
    (dxF s i j / distF s i j ^ 2, dyF s i j / distF s i j ^ 2)
  else (dxF s i j, dyF s i j)

/-- Row i of steer = (target*mask_1.reshape(n,n,1)).sum(axis=1) /
count(mask_1, n). -/
def steerSep0 (s : BoidState) (i : ℕ) : ℝ × ℝ :=
  ((count1 s i : ℝ))⁻¹ •
    sumRow s.pos.length (fun j => if mask1 s i j then targetSep s i j else 0)

/-- Row i of steer = max_vel*np.divide(steer, norm, out=steer,
where=norm != 0) - self.vel. -/
def steerSep1 (s : BoidState) (maxv : ℝ) (i : ℕ) : ℝ × ℝ :=
  maxv • (if pnorm (steerSep0 s i) ≠ 0 then
      (pnorm (steerSep0 s i))⁻¹ • steerSep0 s i
    else steerSep0 s i) - velAt s i

/-- Embeds limit_acceleration (maxacc = 0.03) on one row: the steer
vector is rescaled to norm maxacc where its norm exceeds maxacc.  (The
norm also returned by the source function is only used locally and is
recomputed here where needed.) -/
def limit_acceleration (steer : ℝ × ℝ) : ℝ × ℝ :=
  if 3 / 100 < pnorm steer then ((3 / 100) / pnorm steer) • steer else steer

/-- Row i of the separation steering (first block of flock). -/
def separation (s : BoidState) (maxv : ℝ) (i : ℕ) : ℝ × ℝ :=
  limit_acceleration (steerSep1 s maxv i)

/-- Row i of target = np.dot(mask_2, self.vel)/count(mask_2, n). -/
def targetAli0 (s : BoidState) (i : ℕ) : ℝ × ℝ :=
  ((count2 s i : ℝ))⁻¹ •
    sumRow s.pos.length (fun j => if mask2 s i j then velAt s j else 0)

/-- Row i of target = max_vel * np.divide(target, norm, out=target,
where=norm != 0). -/
def targetAli1 (s : BoidState) (maxv : ℝ) (i : ℕ) : ℝ × ℝ :=
  maxv • (if pnorm (targetAli0 s i) ≠ 0 then
      (pnorm (targetAli0 s i))⁻¹ • targetAli0 s i
    else targetAli0 s i)

/-- Row i of the alignment steering (second block of flock). -/
def alignment (s : BoidState) (maxv : ℝ) (i : ℕ) : ℝ × ℝ :=
  limit_acceleration (targetAli1 s maxv i - velAt s i)

/-- Row i of target = np.dot(mask_2, self.pos)/count(mask_2, n). -/
def targetCoh (s : BoidState) (i : ℕ) : ℝ × ℝ :=
  ((count2 s i : ℝ))⁻¹ •
    sumRow s.pos.length (fun j => if mask2 s i j then posAt s j else 0)

/-- Row i of desired = target - self.pos followed by
desired *= max_vel / norm.  This multiplication has no where guard; for
norm = 0 the model yields 0 by the division convention of ℝ (NumPy
produces non-finite values there). -/
def desired (s : BoidState) (maxv : ℝ) (i : ℕ) : ℝ × ℝ :=
  (maxv / pnorm (targetCoh s i - posAt s i)) • (targetCoh s i - posAt s i)

/-- Row i of the cohesion steering (third block of flock). -/
def cohesion (s : BoidState) (maxv : ℝ) (i : ℕ) : ℝ × ℝ :=
  limit_acceleration (desired s maxv i - velAt s i)

/-- Row i of the velocity after
self.vel += 1.5 * separation + alignment + cohesion, before the speed
clamp. -/
def newVel0 (s : BoidState) (maxv : ℝ) (i : ℕ) : ℝ × ℝ :=
  velAt s i +
    ((3 / 2 : ℝ) • separation s maxv i + alignment s maxv i +
      cohesion s maxv i)

/-- The final speed clamp of flock on one row:
norm = np.sqrt((vel*vel).sum(axis=1));
np.multiply(vel, max_vel/norm, out=vel, where=norm > max_vel);
np.multiply(vel, min_vel/norm, out=vel, where=norm < min_vel).
Both where conditions read the same norm, computed before the first
multiply. -/
def clampVel (minv maxv : ℝ) (v : ℝ × ℝ) : ℝ × ℝ :=
  let norm := pnorm v
  let v1 := if maxv < norm then (maxv / norm) • v else v
  if norm < minv then (minv / norm) • v1 else v1

/-- Row i of the velocity after the full flock update. -/
def newVel (s : BoidState) (minv maxv : ℝ) (i : ℕ) : ℝ × ℝ :=
  clampVel minv maxv (newVel0 s maxv i)

/-- Python float remainder x % w (NumPy mod): x - w * floor(x / w). -/
def wrap (x w : ℝ) : ℝ := x - w * (⌊x / w⌋ : ℤ)

/-- Row i of the position after self.pos += self.vel + (width, height);
self.pos %= (width, height), using the updated velocity. -/
def newPos (s : BoidState) (minv maxv : ℝ) (i : ℕ) : ℝ × ℝ :=
  (wrap ((posAt s i).1 + (newVel s minv maxv i).1 + s.width) s.width,
   wrap ((posAt s i).2 + (newVel s minv maxv i).2 + s.height) s.height)

/-- Embeds Boids.flock from boids.ipynb (defaults min_vel=0.5,
max_vel=2.0): one vectorized simulation step over the n = len(self.pos)
boids, producing the updated velocity and wrapped position arrays and
incrementing the iteration counter. -/
def flock (s : BoidState) (min_vel max_vel : ℝ) : BoidState :=
  { width := s.width, height := s.height, iteration := s.iteration + 1,
    pos := (List.range s.pos.length).map (newPos s min_vel max_vel),
    vel := (List.range s.pos.length).map (newVel s min_vel max_vel) }

end

end Boids

/-! Concrete inputs used by witnesses and counterexamples. -/

/-- The constant slope field f(x, y) = 1 for the euler witnesses. -/
def fOne : ℚ → ℚ → ℚ := fun _ _ => 1

/-- The constant slope field f(x, y) = 0 for the euler counterexample. -/
def fZero : ℚ → ℚ → ℚ := fun _ _ => 0

/-- A concrete iterated map for the attractor witness. -/
def mapW : ℚ → ℚ → ℚ → ℚ → ℚ → ℚ → ℚ → ℚ → ℚ × ℚ :=
  fun x y a _ _ _ _ _ => (y + a, x)

/-- A one-boid state for the C9 counterexample: position (5, 0) and
velocity (-1/50, 0) make the acceleration update cancel the velocity
exactly. -/
noncomputable def sCex : Boids.BoidState :=
  { width := 400, height := 400, iteration := 0,
    pos := [(5, 0)], vel := [(-1 / 50, 0)] }

/-- A one-boid state for the boids witnesses: position (3, 4) and
velocity (3/5, 4/5). -/
noncomputable def sWit : Boids.BoidState :=
  { width := 400, height := 400, iteration := 7,
    pos := [(3, 4)], vel := [(3 / 5, 4 / 5)] }

/-- A concrete fitness function for the GA witnesses. -/
def probW : GA.Ind → ℚ := fun ind => ind.sum

/-- A concrete GeneticAlgorithm state with a population of two
individuals. -/
def gaW : GA.GeneticAlgorithm :=
  { problem := probW, current_population := [[0, 0], [1, 1]],
    current_best := [0, 0] }

/-- Concrete contents for np.empty in the GA witnesses. -/
def initW : ℕ → GA.Ind := fun _ => [0, 0]

/-- Concrete random draws for the GA witnesses. -/
def randW : Fin (gaW.current_population.length / 2)
    → GA.GenStep gaW.current_population.length :=
  fun _ => { a1 := ⟨0, by decide⟩, a2 := ⟨1, by decide⟩,
             b1 := ⟨0, by decide⟩, b2 := ⟨1, by decide⟩, c := 0, d := 1,
             rollA := 1, rollB := 0, noiseA := fun _ => 1,
             noiseB := fun _ => 1 }

/-- A concrete population for the C5 witness. -/
def popW : List ℚ := [3, 1, 2]

/-- Concrete tournament draws for the C5 witness. -/
def idxsW : List (Fin popW.length) := [⟨1, by decide⟩, ⟨0, by decide⟩]

/-! Helper lemmas about the euler_table loop. -/

namespace Euler

theorem go_length_le (func : ℚ → ℚ → ℚ) (h : ℚ) :
    ∀ (n : ℕ) (x0 y0 : ℚ), (euler_table_go func h n x0 y0).length ≤ n := by
  intro n
  induction n with
  | zero => intro x0 y0; simp [euler_table_go]
  | succ m ih =>
      intro x0 y0
      simp only [euler_table_go]
      split
      · simp [Nat.succ_le_succ]
      · simpa using Nat.succ_le_succ (ih _ _)

theorem go_length_pos (func : ℚ → ℚ → ℚ) (h : ℚ) (m : ℕ) (x0 y0 : ℚ) :
    1 ≤ (euler_table_go func h (m + 1) x0 y0).length := by
  simp only [euler_table_go]
  split <;> simp

theorem go_chain (func : ℚ → ℚ → ℚ) (h : ℚ) :
    ∀ (n : ℕ) (x0 y0 : ℚ) (k : ℕ),
      k + 1 < ((x0, y0) :: euler_table_go func h n x0 y0).length →
      ((x0, y0) :: euler_table_go func h n x0 y0).getD (k + 1) (0, 0)
        = euler_step
            (((x0, y0) :: euler_table_go func h n x0 y0).getD k (0, 0)).1
            (((x0, y0) :: euler_table_go func h n x0 y0).getD k (0, 0)).2
            h func := by
  intro n
  induction n with
  | zero => intro x0 y0 k hk; simp [euler_table_go] at hk
  | succ m ih =>
      intro x0 y0 k hk
      unfold euler_table_go at hk ⊢
      by_cases hoff : 5 < |(euler_step x0 y0 h func).1| ∨
          5 < |(euler_step x0 y0 h func).2|
      · rw [if_pos hoff] at hk ⊢
        have hk0 : k = 0 := by simp at hk; omega
        subst hk0
        simp
      · rw [if_neg hoff] at hk ⊢
        match k with
        | 0 => simp
        | Nat.succ j =>
            have hlen : j + 1 <
                (((euler_step x0 y0 h func).1, (euler_step x0 y0 h func).2) ::
                  euler_table_go func h m (euler_step x0 y0 h func).1
                    (euler_step x0 y0 h func).2).length := by
              simp at hk ⊢; omega
            have := ih (euler_step x0 y0 h func).1
              (euler_step x0 y0 h func).2 j hlen
            simpa [List.getD_cons_succ] using this

theorem go_grid (func : ℚ → ℚ → ℚ) (h : ℚ) :
    ∀ (n : ℕ) (x0 y0 : ℚ) (k : ℕ),
      k + 1 < (euler_table_go func h n x0 y0).length →
      |((euler_table_go func h n x0 y0).getD k (0, 0)).1| ≤ 5 ∧
      |((euler_table_go func h n x0 y0).getD k (0, 0)).2| ≤ 5 := by
  intro n
  induction n with
  | zero => intro x0 y0 k hk; simp [euler_table_go] at hk
  | succ m ih =>
      intro x0 y0 k hk
      unfold euler_table_go at hk ⊢
      by_cases hoff : 5 < |(euler_step x0 y0 h func).1| ∨
          5 < |(euler_step x0 y0 h func).2|
      · rw [if_pos hoff] at hk
        simp at hk
      · rw [if_neg hoff] at hk ⊢
        push_neg at hoff
        match k with
        | 0 => simpa using hoff
        | Nat.succ j =>
            have hlen : j + 1 < (euler_table_go func h m
                (euler_step x0 y0 h func).1
                (euler_step x0 y0 h func).2).length := by
              simp at hk; omega
            simpa [List.getD_cons_succ] using
              ih (euler_step x0 y0 h func).1 (euler_step x0 y0 h func).2
                j hlen

end Euler

/-- C6: tap_event mutates the target globals to the tapped point exactly
when x is not None, leaves them unchanged when x is None, and problem
reads the current globals, returning the mean squared error between soln
and [target_x, target_y] (for a length-two soln [a, b] this is
((a - target_x)^2 + (b - target_y)^2) / 2). -/
theorem C6_tap_event_problem_globals :
    (∀ (xv y : ℚ) (s : GA.TargetState),
        GA.tap_event (some xv) y s = { target_x := xv, target_y := y }) ∧
    (∀ (y : ℚ) (s : GA.TargetState), GA.tap_event none y s = s) ∧
    (∀ (s : GA.TargetState) (soln : List ℚ),
        GA.problem s soln
          = GA.mean_squared_error soln [s.target_x, s.target_y]) ∧
    (∀ (s : GA.TargetState) (a b : ℚ),
        GA.problem s [a, b]
          = ((a - s.target_x) ^ 2 + (b - s.target_y) ^ 2) / 2) := by
  refine ⟨fun _ _ _ => rfl, fun _ _ => rfl, fun _ _ => rfl, ?_⟩
  intro s a b
  show GA.mean_squared_error [a, b] [s.target_x, s.target_y] = _
  unfold GA.mean_squared_error
  norm_num

/-- C3: euler_step(x, y, h, func) returns exactly
(x + h, y + h * func(x, y)), the first point of euler_table is (x0, y0),
and every subsequent point is euler_step applied to its predecessor. -/
theorem C3_euler_step_table_recurrence :
    (∀ (x y h : ℚ) (func : ℚ → ℚ → ℚ),
        Euler.euler_step x y h func = (x + h, y + h * func x y)) ∧
    (∀ (x0 y0 h : ℚ) (n : ℕ) (func : ℚ → ℚ → ℚ),
        (Euler.euler_table x0 y0 n h func).getD 0 (0, 0) = (x0, y0)) ∧
    (∀ (x0 y0 h : ℚ) (n : ℕ) (func : ℚ → ℚ → ℚ) (k : ℕ),
        k + 1 < (Euler.euler_table x0 y0 n h func).length →
        (Euler.euler_table x0 y0 n h func).getD (k + 1) (0, 0)
          = Euler.euler_step
              ((Euler.euler_table x0 y0 n h func).getD k (0, 0)).1
              ((Euler.euler_table x0 y0 n h func).getD k (0, 0)).2
              h func) := by
  refine ⟨fun _ _ _ _ => rfl, fun _ _ _ _ _ => rfl, ?_⟩
  intro x0 y0 h n func k hk
  exact Euler.go_chain func h n x0 y0 k hk

/-- Witness for C3: a concrete table with slope field 1, step 1, from
(0, 0): point 2 is euler_step of point 1. -/
theorem C3_euler_step_table_recurrence_witness :
    (Euler.euler_table 0 0 3 1 fOne).getD 2 (0, 0)
      = Euler.euler_step ((Euler.euler_table 0 0 3 1 fOne).getD 1 (0, 0)).1
          ((Euler.euler_table 0 0 3 1 fOne).getD 1 (0, 0)).2 1 fOne :=
  C3_euler_step_table_recurrence.2.2 0 0 1 3 fOne 1
    (by norm_num [Euler.euler_table, Euler.euler_table_go, Euler.euler_step,
      fOne])

/-- Counterexample to C10 as stated: starting already off the grid at
x0 = 6 with h = 0 and slope 0, euler_table returns the two points
(6, 0), (6, 0); the first returned point is not the last, yet it has
|x| = 6 > 5, so it is false that every returned point except possibly
the last satisfies |x| ≤ 5 and |y| ≤ 5. -/
theorem C10_counterexample_first_point_off_grid :
    (Euler.euler_table 6 0 2 0 fZero).length = 2 ∧
    ¬ (∀ k : ℕ, k + 1 < (Euler.euler_table 6 0 2 0 fZero).length →
        |((Euler.euler_table 6 0 2 0 fZero).getD k (0, 0)).1| ≤ 5 ∧
        |((Euler.euler_table 6 0 2 0 fZero).getD k (0, 0)).2| ≤ 5) := by
  have htab : Euler.euler_table 6 0 2 0 fZero = [(6, 0), (6, 0)] := by
    norm_num [Euler.euler_table, Euler.euler_table_go, Euler.euler_step,
      fZero]
  rw [htab]
  refine ⟨rfl, fun hAll => ?_⟩
  have h0 := (hAll 0 (by norm_num)).1
  norm_num at h0

/-- C10 (amended): euler_table returns at least 1 + min(n, 1) and at
most n + 1 points (so it terminates after at most n steps), and the
early break guarantees that every returned point other than the first
and possibly the last satisfies |x| ≤ 5 and |y| ≤ 5.  (Amendment: the
initial point (x0, y0) is appended before any grid check and is never
tested, so the bound cannot be promised for it.) -/
theorem C10_euler_table_length_and_grid :
    (∀ (x0 y0 h : ℚ) (n : ℕ) (func : ℚ → ℚ → ℚ),
        1 + min n 1 ≤ (Euler.euler_table x0 y0 n h func).length ∧
        (Euler.euler_table x0 y0 n h func).length ≤ n + 1) ∧
    (∀ (x0 y0 h : ℚ) (n : ℕ) (func : ℚ → ℚ → ℚ) (k : ℕ), 0 < k →
        k + 1 < (Euler.euler_table x0 y0 n h func).length →
        |((Euler.euler_table x0 y0 n h func).getD k (0, 0)).1| ≤ 5 ∧
        |((Euler.euler_table x0 y0 n h func).getD k (0, 0)).2| ≤ 5) := by
  constructor
  · intro x0 y0 h n func
    constructor
    · match n with
      | 0 => simp [Euler.euler_table, Euler.euler_table_go]
      | m + 1 =>
          have := Euler.go_length_pos func h m x0 y0
          simp only [Euler.euler_table, List.length_cons]
          omega
    · have := Euler.go_length_le func h n x0 y0
      simp only [Euler.euler_table, List.length_cons]
      omega
  · intro x0 y0 h n func k hk hlen
    match k, hk with
    | Nat.succ j, _ =>
        have hlen' : j + 1 < (Euler.euler_table_go func h n x0 y0).length := by
          simp only [Euler.euler_table, List.length_cons] at hlen
          omega
        simpa [Euler.euler_table, List.getD_cons_succ] using
          Euler.go_grid func h n x0 y0 j hlen'

/-- Invariant of the trajectory_coords loop: after the first k
iterations the two arrays still have length n and their entries up to
index k agree with the pure iteration of the map. -/
theorem Attractors.traj_invariant {α : Type} [Zero α]
    (fn : α → α → α → α → α → α → α → α → α × α) (x0 y0 a b c d e f : α)
    (n : ℕ) (hn : 1 ≤ n) :
    ∀ k, k ≤ n - 1 →
      ((List.range k).foldl (Attractors.trajStep fn a b c d e f)
          ((List.replicate n (0 : α)).set 0 x0,
            (List.replicate n (0 : α)).set 0 y0)).1.length = n ∧
      ((List.range k).foldl (Attractors.trajStep fn a b c d e f)
          ((List.replicate n (0 : α)).set 0 x0,
            (List.replicate n (0 : α)).set 0 y0)).2.length = n ∧
      ∀ j, j ≤ k →
        (((List.range k).foldl (Attractors.trajStep fn a b c d e f)
            ((List.replicate n (0 : α)).set 0 x0,
              (List.replicate n (0 : α)).set 0 y0)).1.getD j 0,
          ((List.range k).foldl (Attractors.trajStep fn a b c d e f)
            ((List.replicate n (0 : α)).set 0 x0,
              (List.replicate n (0 : α)).set 0 y0)).2.getD j 0)
          = Attractors.trajectory_point fn x0 y0 a b c d e f j := by
  intro k
  induction k with
  | zero =>
      intro _
      refine ⟨by simp, by simp, ?_⟩
      intro j hj
      have hj0 : j = 0 := Nat.le_zero.mp hj
      subst hj0
      have h0n : 0 < ((List.replicate n (0 : α))).length := by
        simp; omega
      simp [Attractors.trajectory_point, List.getD_eq_getElem?_getD,
        List.getElem?_set_eq_of_lt _ h0n]
  | succ k ihk =>
      intro hk
      have hk' : k ≤ n - 1 := by omega
      obtain ⟨hlen1, hlen2, hval⟩ := ihk hk'
      have hkn : k + 1 < n := by omega
      set st := (List.range k).foldl (Attractors.trajStep fn a b c d e f)
        ((List.replicate n (0 : α)).set 0 x0,
          (List.replicate n (0 : α)).set 0 y0) with hst
      have hstep : (List.range (k + 1)).foldl
          (Attractors.trajStep fn a b c d e f)
          ((List.replicate n (0 : α)).set 0 x0,
            (List.replicate n (0 : α)).set 0 y0)
          = Attractors.trajStep fn a b c d e f st k := by
        rw [List.range_succ, List.foldl_append, ← hst]
        rfl
      rw [hstep]
      have hk0 := hval k le_rfl
      refine ⟨by simp [Attractors.trajStep, hlen1],
        by simp [Attractors.trajStep, hlen2], ?_⟩
      intro j hj
      rcases Nat.lt_or_ge j (k + 1) with hjk | hjk
      · have hjk' : j ≤ k := by omega
        have hne : k + 1 ≠ j := by omega
        have := hval j hjk'
        simpa [Attractors.trajStep, List.getD_eq_getElem?_getD,
          List.getElem?_set_ne hne] using this
      · have hj1 : j = k + 1 := by omega
        subst hj1
        have h1 : k + 1 < st.1.length := by omega
        have h2 : k + 1 < st.2.length := by omega
        have hx : (fn (st.1.getD k 0) (st.2.getD k 0) a b c d e f)
            = Attractors.trajectory_point fn x0 y0 a b c d e f (k + 1) := by
          simp only [Attractors.trajectory_point]
          rw [← hk0]
        simp [Attractors.trajStep, List.getD_eq_getElem?_getD,
          List.getElem?_set_eq_of_lt _ h1, List.getElem?_set_eq_of_lt _ h2,
          ← hx]

/-- C2: for every map fn, start point, parameters, and n ≥ 1,
trajectory_coords returns two length-n sequences with x[0] = x0,
y[0] = y0 and (x[i+1], y[i+1]) = fn(x[i], y[i], a, b, c, d, e, f) for
every i < n - 1: exactly the n-fold iteration of the map. -/
theorem C2_trajectory_coords_iterates {α : Type} [Zero α]
    (fn : α → α → α → α → α → α → α → α → α × α)
    (x0 y0 a b c d e f : α) (n : ℕ) (hn : 1 ≤ n) :
    ∃ xs ys, Attractors.trajectory_coords fn x0 y0 a b c d e f n
        = some (xs, ys) ∧
      xs.length = n ∧ ys.length = n ∧
      xs.getD 0 0 = x0 ∧ ys.getD 0 0 = y0 ∧
      ∀ i, i + 1 < n →
        (xs.getD (i + 1) 0, ys.getD (i + 1) 0)
          = fn (xs.getD i 0) (ys.getD i 0) a b c d e f := by
  have hn0 : ¬ n = 0 := by omega
  obtain ⟨hlen1, hlen2, hval⟩ :=
    Attractors.traj_invariant fn x0 y0 a b c d e f n hn (n - 1) le_rfl
  refine ⟨_, _, ?_, hlen1, hlen2, ?_, ?_, ?_⟩
  · simp only [Attractors.trajectory_coords, if_neg hn0]
  · have h0 := hval 0 (Nat.zero_le _)
    simpa [Attractors.trajectory_point] using congrArg Prod.fst h0
  · have h0 := hval 0 (Nat.zero_le _)
    simpa [Attractors.trajectory_point] using congrArg Prod.snd h0
  · intro i hi
    have hi1 : i + 1 ≤ n - 1 := by omega
    have hi0 : i ≤ n - 1 := by omega
    have hA := hval (i + 1) hi1
    have hB := hval i hi0
    rw [hA]
    simp only [Attractors.trajectory_point]
    rw [← hB]

/-- Witness for C2: the concrete map (x, y) on input n = 3. -/
theorem C2_trajectory_coords_iterates_witness :
    ∃ xs ys, Attractors.trajectory_coords mapW 2 5 1 0 0 0 0 0 3
        = some (xs, ys) ∧
      xs.length = 3 ∧ ys.length = 3 ∧
      xs.getD 0 0 = 2 ∧ ys.getD 0 0 = 5 ∧
      ∀ i, i + 1 < 3 →
        (xs.getD (i + 1) 0, ys.getD (i + 1) 0)
          = mapW (xs.getD i 0) (ys.getD i 0) 1 0 0 0 0 0 :=
  C2_trajectory_coords_iterates mapW 2 5 1 0 0 0 0 0 3 (by norm_num)

/-- Witness for C10: in the concrete table from (0, 0) with slope 1 and
step 1, the interior point at index 1 lies on the grid. -/
theorem C10_euler_table_length_and_grid_witness :
    |((Euler.euler_table 0 0 3 1 fOne).getD 1 (0, 0)).1| ≤ 5 ∧
    |((Euler.euler_table 0 0 3 1 fOne).getD 1 (0, 0)).2| ≤ 5 :=
  C10_euler_table_length_and_grid.2 0 0 1 3 fOne 1 (by norm_num)
    (by norm_num [Euler.euler_table, Euler.euler_table_go, Euler.euler_step,
      fOne])

/-! Helper lemmas about the GA selection functions. -/

namespace GA

theorem foldl_min_le : ∀ (fs : List ℚ) (f : ℚ),
    fs.foldl min f ≤ f ∧ ∀ x ∈ fs, fs.foldl min f ≤ x := by
  intro fs
  induction fs with
  | nil => intro f; exact ⟨le_rfl, by simp⟩
  | cons g gs ih =>
      intro f
      obtain ⟨h1, h2⟩ := ih (min f g)
      refine ⟨le_trans h1 (min_le_left _ _), ?_⟩
      intro x hx
      rcases List.mem_cons.mp hx with hx | hx
      · subst hx
        exact le_trans h1 (min_le_right _ _)
      · exact h2 x hx

theorem foldl_min_mem : ∀ (fs : List ℚ) (f : ℚ),
    fs.foldl min f = f ∨ fs.foldl min f ∈ fs := by
  intro fs
  induction fs with
  | nil => intro f; exact Or.inl rfl
  | cons g gs ih =>
      intro f
      rcases ih (min f g) with h | h
      · rcases min_cases f g with ⟨hm, _⟩ | ⟨hm, _⟩
        · exact Or.inl (by rw [List.foldl_cons, h, hm])
        · exact Or.inr (by rw [List.foldl_cons, h, hm]; exact List.mem_cons_self _ _)
      · exact Or.inr (List.mem_cons_of_mem _ h)

theorem list_min_spec (l : List ℚ) (q : ℚ) (h : list_min l = some q) :
    q ∈ l ∧ ∀ x ∈ l, q ≤ x := by
  match l, h with
  | f :: fs, h =>
    have hq : q = fs.foldl min f := by
      have := h
      simp [list_min] at this
      exact this.symm
    subst hq
    constructor
    · rcases foldl_min_mem fs f with h1 | h1
      · rw [h1]; exact List.mem_cons_self _ _
      · exact List.mem_cons_of_mem _ h1
    · intro x hx
      rcases List.mem_cons.mp hx with hx | hx
      · rw [hx]; exact (foldl_min_le fs f).1
      · exact (foldl_min_le fs f).2 x hx

theorem find_current_best_spec {α : Type} (population : List α)
    (problem : α → ℚ) (hne : population ≠ []) :
    ∃ w, find_current_best population problem = some w ∧ w ∈ population ∧
      ∀ y ∈ population, problem w ≤ problem y := by
  obtain ⟨p, ps, rfl⟩ := List.exists_cons_of_ne_nil hne
  have hq : list_min ((p :: ps).map (fun x => assess_fitness x problem))
      = some ((ps.map (fun x => assess_fitness x problem)).foldl min
          (assess_fitness p problem)) := by
    simp only [List.map_cons]
    rfl
  obtain ⟨hqmem, hqmin⟩ := list_min_spec _ _ hq
  have hidx : ((p :: ps).map (fun x => assess_fitness x problem)).indexOf
        ((ps.map (fun x => assess_fitness x problem)).foldl min
          (assess_fitness p problem))
      < ((p :: ps).map (fun x => assess_fitness x problem)).length :=
    List.indexOf_lt_length.mpr hqmem
  have hidx' : ((p :: ps).map (fun x => assess_fitness x problem)).indexOf
        ((ps.map (fun x => assess_fitness x problem)).foldl min
          (assess_fitness p problem))
      < (p :: ps).length := by
    simpa using hidx
  refine ⟨(p :: ps).get ⟨_, hidx'⟩, ?_, List.get_mem _ _ _, ?_⟩
  · unfold find_current_best
    simp only [hq]
    rw [List.get?_eq_getElem?, List.getElem?_eq_getElem hidx']
    simp
  · intro y hy
    have h1 := List.getElem_indexOf hidx
    rw [List.getElem_map] at h1
    have hwq : problem ((p :: ps).get ⟨_, hidx'⟩)
        = (ps.map (fun x => assess_fitness x problem)).foldl min
            (assess_fitness p problem) := by
      simpa [assess_fitness, List.get_eq_getElem] using h1
    rw [hwq]
    exact hqmin _ (List.mem_map_of_mem _ hy)


theorem tournament_spec {α : Type} (population : List α)
    (idxs : List (Fin population.length)) (problem : α → ℚ)
    (hne : idxs ≠ []) :
    ∃ w, tournament_select_with_replacement population idxs problem = some w ∧
      w ∈ population ∧
      ∀ j ∈ idxs, problem w ≤ problem (population.get j) := by
  have hch : idxs.map (fun i => population.get i) ≠ [] := by
    simpa using hne
  obtain ⟨w, hw, hmem, hmin⟩ :=
    find_current_best_spec (idxs.map (fun i => population.get i)) problem hch
  refine ⟨w, hw, ?_, ?_⟩
  · obtain ⟨j, _, hj⟩ := List.mem_map.mp hmem
    rw [← hj]
    exact List.get_mem _ _ _
  · intro j hj
    exact hmin (population.get j) (List.mem_map_of_mem _ hj)

end GA

/-- C5: for a non-empty population and tournament size at least one,
tournament_select_with_replacement returns a member of the population
whose fitness is minimal among the drawn challengers; find_current_best
returns a member of its input population achieving the minimum fitness
over that population. -/
theorem C5_tournament_and_best_minimal :
    (∀ {α : Type} (population : List α)
        (idxs : List (Fin population.length)) (problem : α → ℚ),
        idxs ≠ [] →
        ∃ w, GA.tournament_select_with_replacement population idxs problem
            = some w ∧
          w ∈ population ∧
          ∀ j ∈ idxs, problem w ≤ problem (population.get j)) ∧
    (∀ {α : Type} (population : List α) (problem : α → ℚ),
        population ≠ [] →
        ∃ w, GA.find_current_best population problem = some w ∧
          w ∈ population ∧ ∀ y ∈ population, problem w ≤ problem y) :=
  ⟨fun population idxs problem hne =>
      GA.tournament_spec population idxs problem hne,
   fun population problem hne =>
      GA.find_current_best_spec population problem hne⟩

/-- Witness for C5 at a concrete population of three rationals with the
identity fitness and a two-challenger tournament. -/
theorem C5_tournament_and_best_minimal_witness :
    (∃ w, GA.tournament_select_with_replacement popW idxsW id = some w ∧
      w ∈ popW ∧ ∀ j ∈ idxsW, id w ≤ id (popW.get j)) ∧
    (∃ w, GA.find_current_best popW id = some w ∧
      w ∈ popW ∧ ∀ y ∈ popW, id w ≤ id y) :=
  ⟨C5_tournament_and_best_minimal.1 popW idxsW id (by simp [idxsW]),
   C5_tournament_and_best_minimal.2 popW id (by simp [popW])⟩

/-! Helper lemmas for the generational update. -/

namespace GA

theorem update_step_some (current : List Ind) (problem : Ind → ℚ)
    (should_mutate : Bool) (mutation_rate mutation_scale : ℚ)
    (s : GenStep current.length) (next : List Ind) (i : ℕ) :
    ∃ next', update_step current problem should_mutate mutation_rate
        mutation_scale s next i = some next' ∧
      next'.length = next.length := by
  obtain ⟨pa, hpa, -, -⟩ :=
    tournament_spec current [s.a1, s.a2] problem (by simp)
  obtain ⟨pb, hpb, -, -⟩ :=
    tournament_spec current [s.b1, s.b2] problem (by simp)
  unfold update_step
  rw [hpa, hpb]
  exact ⟨_, rfl, by simp [List.length_set]⟩

theorem foldlM_update_length (current : List Ind) (problem : Ind → ℚ)
    (should_mutate : Bool) (mutation_rate mutation_scale : ℚ)
    (rand : Fin (current.length / 2) → GenStep current.length) :
    ∀ (L : List (Fin (current.length / 2))) (next : List Ind),
      ∃ out, L.foldlM
          (fun next i =>
            update_step current problem should_mutate mutation_rate
              mutation_scale (rand i) next i.val)
          next = some out ∧
        out.length = next.length := by
  intro L
  induction L with
  | nil => intro next; exact ⟨next, rfl, rfl⟩
  | cons i L ih =>
      intro next
      obtain ⟨next', hstep, hlen1⟩ := update_step_some current problem
        should_mutate mutation_rate mutation_scale (rand i) next i.val
      obtain ⟨out, hfold, hlen2⟩ := ih next'
      refine ⟨out, ?_, by rw [hlen2, hlen1]⟩
      rw [List.foldlM_cons, hstep]
      simpa using hfold

end GA

/-- C1: update_population always returns a next population with exactly
as many individuals as the input population, and next_generation (on a
non-empty population, where the fittest-member lookup is defined)
preserves the size of current_population. -/
theorem C1_population_size_preserved :
    (∀ (current : List GA.Ind) (problem : GA.Ind → ℚ)
        (should_mutate : Bool) (mrate mscale : ℚ) (init : ℕ → GA.Ind)
        (rand : Fin (current.length / 2) → GA.GenStep current.length),
        ∃ next, GA.update_population current problem should_mutate mrate
            mscale init rand = some next ∧
          next.length = current.length) ∧
    (∀ (ga : GA.GeneticAlgorithm) (mrate mscale : ℚ)
        (should_mutate : Bool) (init : ℕ → GA.Ind)
        (rand : Fin (ga.current_population.length / 2)
          → GA.GenStep ga.current_population.length),
        ga.current_population ≠ [] →
        ∃ ga', ga.next_generation mrate mscale should_mutate init rand
            = some ga' ∧
          ga'.current_population.length
            = ga.current_population.length) := by
  have main : ∀ (current : List GA.Ind) (problem : GA.Ind → ℚ)
      (should_mutate : Bool) (mrate mscale : ℚ) (init : ℕ → GA.Ind)
      (rand : Fin (current.length / 2) → GA.GenStep current.length),
      ∃ next, GA.update_population current problem should_mutate mrate
          mscale init rand = some next ∧
        next.length = current.length := by
    intro current problem should_mutate mrate mscale init rand
    obtain ⟨out, hout, hlen⟩ := GA.foldlM_update_length current problem
      should_mutate mrate mscale rand
      (List.finRange (current.length / 2))
      ((List.range current.length).map init)
    refine ⟨out, ?_, by simpa using hlen⟩
    unfold GA.update_population
    exact hout
  refine ⟨main, ?_⟩
  intro ga mrate mscale should_mutate init rand hne
  obtain ⟨pop, hpop, hlen⟩ := main ga.current_population ga.problem
    should_mutate mrate mscale init rand
  have hpne : pop ≠ [] := by
    intro h
    apply hne
    rw [h] at hlen
    exact List.length_eq_zero.mp hlen.symm
  obtain ⟨best, hbest, -, -⟩ :=
    GA.find_current_best_spec pop ga.problem hpne
  unfold GA.GeneticAlgorithm.next_generation
  rw [hpop]
  simp only [hbest]
  exact ⟨_, rfl, hlen⟩

/-- Witness for C1: next_generation on a concrete two-individual state
returns a state whose population still has two members. -/
theorem C1_population_size_preserved_witness :
    ∃ ga', gaW.next_generation 1 1 true initW randW = some ga' ∧
      ga'.current_population.length
        = gaW.current_population.length :=
  C1_population_size_preserved.2 gaW 1 1 true initW randW (by simp [gaW])

/-- Counterexample to C7 as stated: parse_type, defined inside
load_google_landsat_metadata in Heat_and_Trees.ipynb, installs a bare
except handler.  On the metadata field "L1TP" the modelled eval raises
SyntaxError, yet parse_type substitutes the raw string as a default and
returns normally; the exception does not propagate to the caller. -/
theorem C7_counterexample_parse_type_handler :
    HeatTrees.evalModel "L1TP" = Except.error "SyntaxError" ∧
    HeatTrees.parse_type HeatTrees.evalModel "L1TP"
      = Except.ok (Sum.inr "L1TP") ∧
    ∀ e : String,
      HeatTrees.parse_type HeatTrees.evalModel "L1TP" ≠ Except.error e := by
  have hev : HeatTrees.evalModel "L1TP" = Except.error "SyntaxError" := by
    unfold HeatTrees.evalModel
    rw [if_neg (by decide : ¬ ("L1TP" : String) = "42")]
  have hpt : HeatTrees.parse_type HeatTrees.evalModel "L1TP"
      = Except.ok (Sum.inr "L1TP") := by
    unfold HeatTrees.parse_type
    rw [hev]
  refine ⟨hev, hpt, ?_⟩
  intro e h
  rw [hpt] at h
  exact Except.noConfusion h

/-- C7 (amended): with the single exception of parse_type (inside
load_google_landsat_metadata in Heat_and_Trees.ipynb), no notebook
function installs an exception handler.  parse_type catches every
exception raised by eval(x) and substitutes the raw string x as the
default value, and passes parsed values through unchanged when eval
succeeds. -/
theorem C7_parse_type_catches_and_substitutes :
    (∀ {E V : Type} (ev : String → Except E V) (x : String) (e : E),
        ev x = Except.error e →
        HeatTrees.parse_type ev x = Except.ok (Sum.inr x)) ∧
    (∀ {E V : Type} (ev : String → Except E V) (x : String) (v : V),
        ev x = Except.ok v →
        HeatTrees.parse_type ev x = Except.ok (Sum.inl v)) := by
  constructor
  · intro E V ev x e h
    unfold HeatTrees.parse_type
    rw [h]
  · intro E V ev x v h
    unfold HeatTrees.parse_type
    rw [h]

/-- Witness for C7: the concrete eval model raises on "L1TP" and
parse_type returns the raw string. -/
theorem C7_parse_type_catches_and_substitutes_witness :
    HeatTrees.parse_type HeatTrees.evalModel "L1TP"
      = Except.ok (Sum.inr "L1TP") :=
  C7_parse_type_catches_and_substitutes.1 HeatTrees.evalModel "L1TP"
    "SyntaxError"
    (by unfold HeatTrees.evalModel
        rw [if_neg (by decide : ¬ ("L1TP" : String) = "42")])

/-! Helper lemmas about the boids flocking step. -/

namespace Boids

theorem pnorm_nonneg (p : ℝ × ℝ) : 0 ≤ pnorm p := Real.sqrt_nonneg _

theorem pnorm_eval (a b c : ℝ) (hc : 0 ≤ c) (h : a ^ 2 + b ^ 2 = c ^ 2) :
    pnorm (a, b) = c := by
  unfold pnorm
  rw [show ((a, b) : ℝ × ℝ).1 = a from rfl,
    show ((a, b) : ℝ × ℝ).2 = b from rfl, h, Real.sqrt_sq hc]

theorem pnorm_zero : pnorm (0 : ℝ × ℝ) = 0 := by
  unfold pnorm
  simp

theorem pnorm_smul (c : ℝ) (v : ℝ × ℝ) : pnorm (c • v) = |c| * pnorm v := by
  unfold pnorm
  rw [Prod.smul_fst, Prod.smul_snd, smul_eq_mul, smul_eq_mul, mul_pow,
    mul_pow, ← mul_add, Real.sqrt_mul (sq_nonneg c), Real.sqrt_sq_eq_abs]

theorem clampVel_mem (minv maxv : ℝ) (v : ℝ × ℝ) (h0 : 0 < minv)
    (hmm : minv ≤ maxv) (hv : pnorm v ≠ 0) :
    minv ≤ pnorm (clampVel minv maxv v) ∧
    pnorm (clampVel minv maxv v) ≤ maxv := by
  have hpos : 0 < pnorm v := lt_of_le_of_ne (pnorm_nonneg v) (Ne.symm hv)
  simp only [clampVel]
  by_cases h1 : maxv < pnorm v
  · rw [if_neg (show ¬ pnorm v < minv by linarith), if_pos h1]
    have hmax : pnorm ((maxv / pnorm v) • v) = maxv := by
      rw [pnorm_smul, abs_of_pos (div_pos (lt_of_lt_of_le h0 hmm) hpos)]
      exact div_mul_cancel₀ maxv hv
    rw [hmax]
    exact ⟨hmm, le_rfl⟩
  · by_cases h2 : pnorm v < minv
    · rw [if_pos h2, if_neg h1]
      have hmin : pnorm ((minv / pnorm v) • v) = minv := by
        rw [pnorm_smul, abs_of_pos (div_pos h0 hpos)]
        exact div_mul_cancel₀ minv hv
      rw [hmin]
      exact ⟨le_rfl, hmm⟩
    · rw [if_neg h2, if_neg h1]
      push_neg at h1 h2
      exact ⟨h2, h1⟩

theorem wrap_mem (x w : ℝ) (hw : 0 < w) : 0 ≤ wrap x w ∧ wrap x w < w := by
  have hfr : wrap x w = w * Int.fract (x / w) := by
    unfold wrap
    have h1 : w * Int.fract (x / w) = w * (x / w) - w * (⌊x / w⌋ : ℤ) := by
      rw [← Int.self_sub_floor]
      ring
    have h2 : w * (x / w) = x := by
      rw [mul_comm]
      exact div_mul_cancel₀ x hw.ne'
    rw [h1, h2]
  rw [hfr]
  constructor
  · exact mul_nonneg hw.le (Int.fract_nonneg _)
  · calc w * Int.fract (x / w) < w * 1 :=
          mul_lt_mul_of_pos_left (Int.fract_lt_one _) hw
      _ = w := mul_one w

theorem flock_vel_getD (s : BoidState) (minv maxv : ℝ) (i : ℕ)
    (hi : i < s.pos.length) :
    (flock s minv maxv).vel.getD i (0, 0) = newVel s minv maxv i := by
  simp [flock, List.getD_eq_getElem?_getD, List.getElem?_map,
    List.getElem?_range hi]

theorem flock_pos_getD (s : BoidState) (minv maxv : ℝ) (i : ℕ)
    (hi : i < s.pos.length) :
    (flock s minv maxv).pos.getD i (0, 0) = newPos s minv maxv i := by
  simp [flock, List.getD_eq_getElem?_getD, List.getElem?_map,
    List.getElem?_range hi]

end Boids

/-- C4: one call to Boids.flock is a single step on a fixed-size point
set: the returned state has as many position and velocity rows as
before, the width and height fields are unchanged, and the iteration
counter grows by exactly one. -/
theorem C4_flock_frame_effects (s : Boids.BoidState) (minv maxv : ℝ)
    (hv : s.vel.length = s.pos.length) :
    (Boids.flock s minv maxv).pos.length = s.pos.length ∧
    (Boids.flock s minv maxv).vel.length = s.vel.length ∧
    (Boids.flock s minv maxv).width = s.width ∧
    (Boids.flock s minv maxv).height = s.height ∧
    (Boids.flock s minv maxv).iteration = s.iteration + 1 := by
  refine ⟨?_, ?_, rfl, rfl, rfl⟩
  · simp [Boids.flock]
  · simp [Boids.flock, hv]

/-- Witness for C4 at the concrete one-boid state. -/
theorem C4_flock_frame_effects_witness :
    (Boids.flock sWit (1 / 2) 2).pos.length = sWit.pos.length ∧
    (Boids.flock sWit (1 / 2) 2).vel.length = sWit.vel.length ∧
    (Boids.flock sWit (1 / 2) 2).width = sWit.width ∧
    (Boids.flock sWit (1 / 2) 2).height = sWit.height ∧
    (Boids.flock sWit (1 / 2) 2).iteration = sWit.iteration + 1 :=
  C4_flock_frame_effects sWit (1 / 2) 2 (by simp [sWit])

/-- C8: when the world has positive width and height, every position
returned by Boids.flock lies inside the toroidal world:
0 ≤ x < width and 0 ≤ y < height, whatever the velocity update did
(positions are reduced modulo the world size every step). -/
theorem C8_flock_positions_in_world (s : Boids.BoidState)
    (minv maxv : ℝ) (hw : 0 < s.width) (hh : 0 < s.height) :
    ∀ i, i < s.pos.length →
      0 ≤ ((Boids.flock s minv maxv).pos.getD i (0, 0)).1 ∧
      ((Boids.flock s minv maxv).pos.getD i (0, 0)).1 < s.width ∧
      0 ≤ ((Boids.flock s minv maxv).pos.getD i (0, 0)).2 ∧
      ((Boids.flock s minv maxv).pos.getD i (0, 0)).2 < s.height := by
  intro i hi
  rw [Boids.flock_pos_getD s minv maxv i hi]
  obtain ⟨h1, h2⟩ := Boids.wrap_mem
    ((Boids.posAt s i).1 + (Boids.newVel s minv maxv i).1 + s.width)
    s.width hw
  obtain ⟨h3, h4⟩ := Boids.wrap_mem
    ((Boids.posAt s i).2 + (Boids.newVel s minv maxv i).2 + s.height)
    s.height hh
  exact ⟨h1, h2, h3, h4⟩

/-- Witness for C8 at the concrete one-boid state, boid 0. -/
theorem C8_flock_positions_in_world_witness :
    0 ≤ ((Boids.flock sWit (1 / 2) 2).pos.getD 0 (0, 0)).1 ∧
    ((Boids.flock sWit (1 / 2) 2).pos.getD 0 (0, 0)).1 < sWit.width ∧
    0 ≤ ((Boids.flock sWit (1 / 2) 2).pos.getD 0 (0, 0)).2 ∧
    ((Boids.flock sWit (1 / 2) 2).pos.getD 0 (0, 0)).2 < sWit.height :=
  C8_flock_positions_in_world sWit (1 / 2) 2 (by norm_num [sWit])
    (by norm_num [sWit]) 0 (by simp [sWit])

/-! Evaluation of the flock step on a one-boid state: with a single boid
both masks are empty, so separation and alignment steer by -vel and
cohesion steers toward the origin of the world. -/

namespace Boids

theorem posAt_single (w h : ℝ) (it : ℕ) (p v : ℝ × ℝ) :
    posAt ⟨w, h, it, [p], [v]⟩ 0 = p := rfl

theorem velAt_single (w h : ℝ) (it : ℕ) (p v : ℝ × ℝ) :
    velAt ⟨w, h, it, [p], [v]⟩ 0 = v := rfl

theorem distF_single (w h : ℝ) (it : ℕ) (p v : ℝ × ℝ) :
    distF ⟨w, h, it, [p], [v]⟩ 0 0 = 0 := by
  unfold distF dxF dyF
  rw [posAt_single]
  simp

theorem mask1_single (w h : ℝ) (it : ℕ) (p v : ℝ × ℝ) :
    ¬ mask1 ⟨w, h, it, [p], [v]⟩ 0 0 := by
  unfold mask1
  rw [distF_single]
  simp

theorem mask2_single (w h : ℝ) (it : ℕ) (p v : ℝ × ℝ) :
    ¬ mask2 ⟨w, h, it, [p], [v]⟩ 0 0 := by
  unfold mask2
  rw [distF_single]
  simp

theorem count1_single (w h : ℝ) (it : ℕ) (p v : ℝ × ℝ) :
    count1 ⟨w, h, it, [p], [v]⟩ 0 = 1 := by
  unfold count1
  simp [show List.range 1 = [0] from rfl, decide_eq_false (mask1_single w h it p v)]

theorem count2_single (w h : ℝ) (it : ℕ) (p v : ℝ × ℝ) :
    count2 ⟨w, h, it, [p], [v]⟩ 0 = 1 := by
  unfold count2
  simp [show List.range 1 = [0] from rfl, decide_eq_false (mask2_single w h it p v)]

theorem steerSep0_single (w h : ℝ) (it : ℕ) (p v : ℝ × ℝ) :
    steerSep0 ⟨w, h, it, [p], [v]⟩ 0 = 0 := by
  unfold steerSep0 sumRow
  rw [count1_single]
  simp [show List.range 1 = [0] from rfl, mask1_single w h it p v]

theorem steerSep1_single (w h : ℝ) (it : ℕ) (p v : ℝ × ℝ) (maxv : ℝ) :
    steerSep1 ⟨w, h, it, [p], [v]⟩ maxv 0 = -v := by
  unfold steerSep1
  rw [steerSep0_single, pnorm_zero, velAt_single]
  simp

theorem separation_single (w h : ℝ) (it : ℕ) (p v : ℝ × ℝ) (maxv : ℝ) :
    separation ⟨w, h, it, [p], [v]⟩ maxv 0 = limit_acceleration (-v) := by
  unfold separation
  rw [steerSep1_single]

theorem targetAli0_single (w h : ℝ) (it : ℕ) (p v : ℝ × ℝ) :
    targetAli0 ⟨w, h, it, [p], [v]⟩ 0 = 0 := by
  unfold targetAli0 sumRow
  rw [count2_single]
  simp [show List.range 1 = [0] from rfl, mask2_single w h it p v]

theorem targetAli1_single (w h : ℝ) (it : ℕ) (p v : ℝ × ℝ) (maxv : ℝ) :
    targetAli1 ⟨w, h, it, [p], [v]⟩ maxv 0 = 0 := by
  unfold targetAli1
  rw [targetAli0_single, pnorm_zero]
  simp

theorem alignment_single (w h : ℝ) (it : ℕ) (p v : ℝ × ℝ) (maxv : ℝ) :
    alignment ⟨w, h, it, [p], [v]⟩ maxv 0 = limit_acceleration (-v) := by
  unfold alignment
  rw [targetAli1_single, velAt_single, zero_sub]

theorem targetCoh_single (w h : ℝ) (it : ℕ) (p v : ℝ × ℝ) :
    targetCoh ⟨w, h, it, [p], [v]⟩ 0 = 0 := by
  unfold targetCoh sumRow
  rw [count2_single]
  simp [show List.range 1 = [0] from rfl, mask2_single w h it p v]

theorem desired_single (w h : ℝ) (it : ℕ) (p v : ℝ × ℝ) (maxv : ℝ) :
    desired ⟨w, h, it, [p], [v]⟩ maxv 0
      = (maxv / pnorm (-p)) • (-p) := by
  unfold desired
  rw [targetCoh_single, posAt_single, zero_sub]

theorem cohesion_single (w h : ℝ) (it : ℕ) (p v : ℝ × ℝ) (maxv : ℝ) :
    cohesion ⟨w, h, it, [p], [v]⟩ maxv 0
      = limit_acceleration ((maxv / pnorm (-p)) • (-p) - v) := by
  unfold cohesion
  rw [desired_single, velAt_single]

theorem newVel0_single (w h : ℝ) (it : ℕ) (p v : ℝ × ℝ) (maxv : ℝ) :
    newVel0 ⟨w, h, it, [p], [v]⟩ maxv 0
      = v + ((3 / 2 : ℝ) • limit_acceleration (-v)
          + limit_acceleration (-v)
          + limit_acceleration ((maxv / pnorm (-p)) • (-p) - v)) := by
  unfold newVel0
  rw [separation_single, alignment_single, cohesion_single, velAt_single]

end Boids

/-! Numeric evaluation of the flock step on the two concrete one-boid
states. -/

namespace Boids

theorem limacc_small (v : ℝ × ℝ) (h : pnorm v ≤ 3 / 100) :
    limit_acceleration v = v := by
  unfold limit_acceleration
  rw [if_neg (not_lt.mpr h)]

theorem limacc_big (v : ℝ × ℝ) (h : 3 / 100 < pnorm v) :
    limit_acceleration v = ((3 / 100) / pnorm v) • v := by
  unfold limit_acceleration
  rw [if_pos h]

end Boids

theorem newVel0_sCex_eval : Boids.newVel0 sCex 2 0 = ((0 : ℝ), (0 : ℝ)) := by
  rw [show sCex
      = ⟨400, 400, 0, [((5 : ℝ), (0 : ℝ))], [((-1/50 : ℝ), (0 : ℝ))]⟩
    from rfl]
  rw [Boids.newVel0_single]
  have h1 : (-(((-1/50 : ℝ), (0 : ℝ))) : ℝ × ℝ) = ((1/50 : ℝ), (0 : ℝ)) := by
    norm_num [Prod.neg_mk]
  have h2 : (-(((5 : ℝ), (0 : ℝ))) : ℝ × ℝ) = ((-5 : ℝ), (0 : ℝ)) := by
    norm_num [Prod.neg_mk]
  rw [h1, h2]
  rw [Boids.pnorm_eval (-5) 0 5 (by norm_num) (by norm_num)]
  have h4 : ((2 : ℝ) / 5) • (((-5 : ℝ), (0 : ℝ)) : ℝ × ℝ)
      = ((-2 : ℝ), (0 : ℝ)) := by
    rw [Prod.smul_mk]
    norm_num
  rw [h4]
  have h5 : ((((-2) : ℝ), (0 : ℝ)) : ℝ × ℝ) - ((-1/50 : ℝ), (0 : ℝ))
      = ((-99/50 : ℝ), (0 : ℝ)) := by
    rw [Prod.mk_sub_mk]
    norm_num
  rw [h5]
  have h6 : Boids.limit_acceleration (((1/50 : ℝ), (0 : ℝ)))
      = ((1/50 : ℝ), (0 : ℝ)) := by
    apply Boids.limacc_small
    rw [Boids.pnorm_eval (1/50) 0 (1/50) (by norm_num) (by norm_num)]
    norm_num
  have h7 : Boids.limit_acceleration (((-99/50 : ℝ), (0 : ℝ)))
      = ((-3/100 : ℝ), (0 : ℝ)) := by
    rw [Boids.limacc_big _ (by
      rw [Boids.pnorm_eval (-99/50) 0 (99/50) (by norm_num) (by norm_num)]
      norm_num)]
    rw [Boids.pnorm_eval (-99/50) 0 (99/50) (by norm_num) (by norm_num)]
    rw [Prod.smul_mk]
    norm_num
  rw [h6, h7]
  rw [Prod.smul_mk, Prod.mk_add_mk, Prod.mk_add_mk, Prod.mk_add_mk]
  norm_num

theorem newVel_sCex_eval :
    Boids.newVel sCex (1/2) 2 0 = ((0 : ℝ), (0 : ℝ)) := by
  unfold Boids.newVel
  rw [newVel0_sCex_eval]
  simp only [Boids.clampVel]
  rw [Boids.pnorm_eval 0 0 0 le_rfl (by norm_num)]
  rw [if_neg (by norm_num : ¬ (0 : ℝ) > 2), if_pos (by norm_num : (0:ℝ) < 1/2)]
  rw [Prod.smul_mk]
  norm_num

theorem newVel0_sWit_eval :
    Boids.newVel0 sWit 2 0 = ((537/1000 : ℝ), (716/1000 : ℝ)) := by
  rw [show sWit
      = ⟨400, 400, 7, [((3 : ℝ), (4 : ℝ))], [((3/5 : ℝ), (4/5 : ℝ))]⟩
    from rfl]
  rw [Boids.newVel0_single]
  have h1 : (-(((3/5 : ℝ), (4/5 : ℝ))) : ℝ × ℝ)
      = ((-3/5 : ℝ), (-4/5 : ℝ)) := by
    norm_num [Prod.neg_mk]
  have h2 : (-(((3 : ℝ), (4 : ℝ))) : ℝ × ℝ) = ((-3 : ℝ), (-4 : ℝ)) := by
    norm_num [Prod.neg_mk]
  rw [h1, h2]
  rw [Boids.pnorm_eval (-3) (-4) 5 (by norm_num) (by norm_num)]
  have h4 : ((2 : ℝ) / 5) • (((-3 : ℝ), (-4 : ℝ)) : ℝ × ℝ)
      = ((-6/5 : ℝ), (-8/5 : ℝ)) := by
    rw [Prod.smul_mk]
    norm_num
  rw [h4]
  have h5 : ((((-6/5) : ℝ), (-8/5 : ℝ)) : ℝ × ℝ) - ((3/5 : ℝ), (4/5 : ℝ))
      = ((-9/5 : ℝ), (-12/5 : ℝ)) := by
    rw [Prod.mk_sub_mk]
    norm_num
  rw [h5]
  have h6 : Boids.limit_acceleration (((-3/5 : ℝ), (-4/5 : ℝ)))
      = ((-9/500 : ℝ), (-12/500 : ℝ)) := by
    rw [Boids.limacc_big _ (by
      rw [Boids.pnorm_eval (-3/5) (-4/5) 1 (by norm_num) (by norm_num)]
      norm_num)]
    rw [Boids.pnorm_eval (-3/5) (-4/5) 1 (by norm_num) (by norm_num)]
    rw [Prod.smul_mk]
    norm_num
  have h7 : Boids.limit_acceleration (((-9/5 : ℝ), (-12/5 : ℝ)))
      = ((-9/500 : ℝ), (-12/500 : ℝ)) := by
    rw [Boids.limacc_big _ (by
      rw [Boids.pnorm_eval (-9/5) (-12/5) 3 (by norm_num) (by norm_num)]
      norm_num)]
    rw [Boids.pnorm_eval (-9/5) (-12/5) 3 (by norm_num) (by norm_num)]
    rw [Prod.smul_mk]
    norm_num
  rw [h6, h7]
  rw [Prod.smul_mk, Prod.mk_add_mk, Prod.mk_add_mk, Prod.mk_add_mk]
  norm_num

/-- Counterexample to C9 as stated: in the one-boid state sCex (position
(5, 0), velocity (-1/50, 0)) the acceleration update cancels the
velocity exactly, the clamp multiplies the zero vector by
min_vel/norm with norm = 0 (non-finite in NumPy, zero in the real
model), and the resulting speed is 0, outside [min_vel, max_vel] =
[1/2, 2]. -/
theorem C9_counterexample_zero_velocity :
    0 < (1/2 : ℝ) ∧ (1/2 : ℝ) ≤ 2 ∧
    sCex.vel.length = sCex.pos.length ∧
    ¬ ((1/2 : ℝ)
          ≤ Boids.pnorm ((Boids.flock sCex (1/2) 2).vel.getD 0 (0, 0)) ∧
        Boids.pnorm ((Boids.flock sCex (1/2) 2).vel.getD 0 (0, 0)) ≤ 2) := by
  refine ⟨by norm_num, by norm_num, rfl, ?_⟩
  rw [Boids.flock_vel_getD sCex (1/2) 2 0 (by simp [sCex])]
  rw [newVel_sCex_eval]
  rw [Boids.pnorm_eval 0 0 0 le_rfl (by norm_num)]
  intro hc
  have := hc.1
  norm_num at this

/-- C9 (amended): after Boids.flock(min_vel, max_vel) with
0 < min_vel ≤ max_vel, every boid whose velocity after the acceleration
update (before the speed clamp) is nonzero ends with speed in
[min_vel, max_vel]: velocities above max_vel are rescaled to norm
max_vel and velocities below min_vel are rescaled to norm min_vel.
(Amendment: a boid whose pre-clamp velocity is exactly zero is excluded;
for it the rescale multiplies by min_vel/0, which produces non-finite
values in NumPy — zero in this real model — leaving speed 0 outside the
interval.) -/
theorem C9_flock_speed_clamped (s : Boids.BoidState) (minv maxv : ℝ)
    (i : ℕ) (h0 : 0 < minv) (hmm : minv ≤ maxv) (hi : i < s.pos.length)
    (hnz : Boids.pnorm (Boids.newVel0 s maxv i) ≠ 0) :
    minv ≤ Boids.pnorm ((Boids.flock s minv maxv).vel.getD i (0, 0)) ∧
    Boids.pnorm ((Boids.flock s minv maxv).vel.getD i (0, 0)) ≤ maxv := by
  rw [Boids.flock_vel_getD s minv maxv i hi]
  exact Boids.clampVel_mem minv maxv _ h0 hmm hnz

/-- Witness for C9 at the concrete one-boid state sWit, whose pre-clamp
velocity is (537/1000, 716/1000), of norm 895/1000. -/
theorem C9_flock_speed_clamped_witness :
    (1/2 : ℝ) ≤ Boids.pnorm ((Boids.flock sWit (1/2) 2).vel.getD 0 (0, 0)) ∧
    Boids.pnorm ((Boids.flock sWit (1/2) 2).vel.getD 0 (0, 0)) ≤ 2 :=
  C9_flock_speed_clamped sWit (1/2) 2 0 (by norm_num) (by norm_num)
    (by simp [sWit])
    (by
      rw [newVel0_sWit_eval]
      rw [Boids.pnorm_eval (537/1000) (716/1000) (895/1000) (by norm_num)
        (by norm_num)]
      norm_num)
